import Mathlib

/-!
# Verification of the KION equipment-recommendation retrieval pipeline

A shallow embedding of the pipeline's core algorithms:

* `app/filters.py` — hard/soft constraint checks, match scoring, rerank;
* `app/policy.py` — institution-priority reranking and the recommendation cap;
* `app/intent_parser.py` — negative-condition filtering and OR-condition boosts;
* `app/hybrid_search.py` — lexical/semantic score fusion;
* `app/conversation.py` — follow-up-intent detection and condition merging;
* `app/query_parser.py` — wafer-size extraction;
* `app/main.py` — the fallback selection of passed candidates.

Conventions: Python floats are modelled as `ℚ`; Python dict fields that may be
absent are modelled as `Option` fields with the source's `dict.get` defaults;
Python's stable `sort(key=...)` is modelled by `List.mergeSort` over the same
key; Python string containment (`needle in hay`) is a contiguous-substring
test.  Human-readable failure-reason strings are abstracted to the name of the
failing check (no claim depends on the message text).
-/

/-- Python `str.lower()` on a character list (effective on ASCII letters;
Hangul and other non-cased characters are unchanged, as in CPython for the
inputs at hand). -/
def lowerChars (cs : List Char) : List Char := cs.map Char.toLower

/-- Python `needle in hay` for strings: `needle` occurs contiguously in
`hay`. -/
def strIncludes (hay needle : List Char) : Bool :=
  hay.tails.any fun t => needle.isPrefixOf t

/-- Python ascending stable sort by a numeric-pair key, as used with
`list.sort(key=lambda x: (k1, k2))`: lexicographic comparison of tuples. -/
def lexLe (a b : ℚ × ℚ) : Bool :=
  decide (a.1 < b.1 ∨ (a.1 = b.1 ∧ a.2 ≤ b.2))

/-- `list.sort(key=f)` for a pair-valued key `f`: stable merge sort with the
lexicographic tuple order. -/
def sortByKey (f : α → ℚ × ℚ) (l : List α) : List α :=
  l.mergeSort fun a b => lexLe (f a) (f b)

/-! ## Data model

`ParsedQuery` (`app/query_parser.py`) and an equipment candidate record.  A
candidate is a Python dict in the source; the fields below are the ones the
pipeline reads, with `Option` marking fields the source reads through
`dict.get` with a default. -/

structure ParsedQuery where
  original : String := ""
  normalized : String := ""
  wafer_sizes : List String := []
  temp_min : Option ℚ := none
  temp_max : Option ℚ := none
  materials : List String := []
  categories : List String := []
  institutions : List String := []
  keywords : List String := []
  mapped_categories : List String := []
deriving DecidableEq

structure Equipment where
  equipment_id : String := ""
  name : String := ""
  category : String := ""
  wafer_sizes : List String := []
  materials : List String := []
  temp_min : Option ℚ := none
  temp_max : Option ℚ := none
  institution : String := ""
  score : Option ℚ := none
  is_maintenance : Bool := false
  filter_passed : Option Bool := none
  filter_reasons : List String := []
  match_score : Option ℚ := none
  combined_score : Option ℚ := none
  rag_score : Option ℚ := none
  priority_score : Option ℤ := none
deriving DecidableEq

/-! ## `app/filters.py`: per-candidate checks -/

/-- `check_wafer_size`: pass when no size requested; fail when the candidate
lists no sizes; otherwise pass iff some requested size is supported. -/
def check_wafer_size (e : Equipment) (required_sizes : List String) : Bool :=
  if required_sizes = [] then true
  else if e.wafer_sizes = [] then false
  else required_sizes.any fun s => e.wafer_sizes.contains s

/-- `check_temperature`: pass when no bound requested; fail when the candidate
lacks either temperature datum; fail when the candidate's maximum is below a
requested minimum or its minimum is above a requested maximum. -/
def check_temperature (e : Equipment) (temp_min temp_max : Option ℚ) : Bool :=
  if temp_min = none ∧ temp_max = none then true
  else
    match e.temp_min, e.temp_max with
    | some eq_temp_min, some eq_temp_max =>
      (match temp_min with
       | some m => !decide (eq_temp_max < m)
       | none => true) &&
      (match temp_max with
       | some m => !decide (eq_temp_min > m)
       | none => true)
    | _, _ => false

/-- `check_materials` (soft): pass when no material requested or the candidate
lists none (benefit of the doubt); otherwise pass iff some requested material
matches case-insensitively. -/
def check_materials (e : Equipment) (required_materials : List String) : Bool :=
  if required_materials = [] then true
  else if e.materials = [] then true
  else
    let eq_materials_lower := e.materials.map fun m => lowerChars m.toList
    required_materials.any fun m => eq_materials_lower.contains (lowerChars m.toList)

/-- `check_category`: every control path of the source returns `passed=True`
(category mismatch is a soft fail that only affects scoring), so the check is
constantly true. -/
def check_category (_e : Equipment) (_required _mapped : List String) : Bool :=
  true

/-- `check_institution`: pass when none requested; otherwise pass iff some
requested institution occurs as a substring of the candidate's institution. -/
def check_institution (e : Equipment) (required_institutions : List String) : Bool :=
  if required_institutions = [] then true
  else required_institutions.any fun inst =>
    strIncludes e.institution.toList inst.toList

/-- The named check list built per candidate inside `apply_hard_filters`. -/
def filterChecks (q : ParsedQuery) (e : Equipment) : List (String × Bool) :=
  [("wafer_size", check_wafer_size e q.wafer_sizes),
   ("temperature", check_temperature e q.temp_min q.temp_max),
   ("materials", check_materials e q.materials),
   ("institution", check_institution e q.institutions),
   ("category", check_category e q.categories q.mapped_categories)]

/-- The per-candidate annotation step of `apply_hard_filters`: record the
aggregate pass flag and the names of the failed checks. -/
def annotateFilters (q : ParsedQuery) (e : Equipment) : Equipment :=
  let checks := filterChecks q e
  { e with
    filter_passed := some (checks.all fun c => c.2),
    filter_reasons := (checks.filter fun c => !c.2).map fun c => c.1 }

/-- Sort key of `apply_hard_filters`: `(not filter_passed, -score)` ascending;
the boolean is encoded as 0/1 as in Python tuple comparison. -/
def hardFilterKey (e : Equipment) : ℚ × ℚ :=
  (if e.filter_passed.getD true then 0 else 1, -(e.score.getD 0))

/-- `apply_hard_filters`: annotate every candidate with the check results,
drop failing candidates only in strict mode, and sort passing candidates
first (score-descending within each group). -/
def apply_hard_filters (equipments : List Equipment) (q : ParsedQuery)
    (strict_mode : Bool) : List Equipment :=
  let results := equipments.filterMap fun e =>
    let a := annotateFilters q e
    if strict_mode && !(a.filter_passed.getD true) then none else some a
  sortByKey hardFilterKey results

/-- The facet conditions `calculate_match_score` awards weight for, named for
reuse; each is the verbatim condition of the corresponding branch of the
source (note they differ from the filter checks: no benefit of the doubt for
missing materials, exact category membership). -/
def waferFacetHit (e : Equipment) (q : ParsedQuery) : Bool :=
  q.wafer_sizes.any fun s => e.wafer_sizes.contains s

def tempFacetHit (e : Equipment) (q : ParsedQuery) : Bool :=
  check_temperature e q.temp_min q.temp_max

def materialsFacetHit (e : Equipment) (q : ParsedQuery) : Bool :=
  q.materials.any fun m =>
    (e.materials.map fun x => lowerChars x.toList).contains (lowerChars m.toList)

def categoryFacetHit (e : Equipment) (q : ParsedQuery) : Bool :=
  q.categories.contains e.category

def institutionFacetHit (e : Equipment) (q : ParsedQuery) : Bool :=
  q.institutions.any fun i => strIncludes e.institution.toList i.toList

/-- One facet step of `calculate_match_score`: when the facet was requested,
add its weight to `max_score` and, when the facet condition holds, to
`score`. -/
def msStep (requested hit : Bool) (w : ℚ) (sm : ℚ × ℚ) : ℚ × ℚ :=
  if requested then (sm.1 + (if hit then w else 0), sm.2 + w) else sm

/-- `calculate_match_score`: accumulate `(score, max_score)` over the five
facets in source order, then return `score / max_score` (or `1.0` when
nothing was requested). -/
def calculate_match_score (e : Equipment) (q : ParsedQuery) : ℚ :=
  let sm : ℚ × ℚ := (0, 0)
  let sm := msStep (decide (q.wafer_sizes ≠ [])) (waferFacetHit e q) (1/4) sm
  let sm := msStep (decide (q.temp_min ≠ none ∨ q.temp_max ≠ none))
    (tempFacetHit e q) (1/4) sm
  let sm := msStep (decide (q.materials ≠ [])) (materialsFacetHit e q) (1/4) sm
  let sm := msStep (decide (q.categories ≠ [])) (categoryFacetHit e q) (3/20) sm
  let sm := msStep (decide (q.institutions ≠ [])) (institutionFacetHit e q) (1/10) sm
  if sm.2 = 0 then 1 else sm.1 / sm.2

/-! ## `app/policy.py`: institution priority -/

/-- The loaded `institution_priority.json` table: institution id to integer
priority (lower is better). -/
abbrev PriorityTable := List (String × ℤ)

/-- `InstitutionPriority.get_priority`: look the institution up in the table,
returning 999 when unlisted. -/
def get_priority (t : PriorityTable) (institution_id : String) : ℤ :=
  (t.lookup institution_id).getD 999

/-- The per-candidate priority score of `InstitutionPriority.apply_priority`:
0 for a (truthy, i.e. non-empty) user institution equal to the candidate's,
otherwise the configured priority. -/
def priorityScoreOf (t : PriorityTable) (user_institution : Option String)
    (e : Equipment) : ℤ :=
  match user_institution with
  | some u => if u ≠ "" ∧ e.institution = u then 0 else get_priority t e.institution
  | none => get_priority t e.institution

/-- `InstitutionPriority.apply_priority`: annotate every candidate with its
priority score, then stable-sort by `(priority ascending, rag_score
descending)`. -/
def apply_priority (t : PriorityTable) (equipment_list : List Equipment)
    (user_institution : Option String) : List Equipment :=
  if equipment_list = [] then equipment_list
  else
    let annotated := equipment_list.map fun e =>
      { e with priority_score := some (priorityScoreOf t user_institution e) }
    sortByKey (fun (e : Equipment) => (((e.priority_score.getD 999 : ℤ) : ℚ),
                         -(e.rag_score.getD 0))) annotated

/-! ## `app/filters.py`: rerank -/

/-- The policy settings `rerank_with_filters` reads (`maintenance_exclude`,
`min_rag_score`, `max_recommendations`), with the defaults the source passes
to `PolicySettings.get`. -/
structure PolicySettingsModel where
  maintenance_exclude : Bool := false
  min_rag_score : ℚ := 0
  max_recommendations : ℕ := 10
deriving DecidableEq

/-- The score-combination step of `rerank_with_filters`: read the retrieval
score (default 0.5), compute the match score, and set
`combined_score = (rag*0.4 + match*0.6) * (1.0 or 0.3)`. -/
def scoreCombine (q : ParsedQuery) (e : Equipment) : Equipment :=
  let rag_score := e.score.getD (1/2)
  let ms := calculate_match_score e q
  let filter_weight : ℚ := if e.filter_passed.getD true then 1 else 3/10
  { e with
    combined_score := some ((rag_score * (4/10) + ms * (6/10)) * filter_weight),
    match_score := some ms,
    rag_score := some rag_score }

/-- The STEP-5 policy drops of `rerank_with_filters` (skipped entirely when
the Policy DB failed to load): maintenance exclusion when enabled, then the
minimum-RAG-score filter. -/
def policyDrop (policy : Option PolicySettingsModel) (filtered : List Equipment) :
    List Equipment :=
  match policy with
  | some p =>
    let f1 := if p.maintenance_exclude
              then filtered.filter (fun e => !e.is_maintenance) else filtered
    f1.filter fun e => decide (p.min_rag_score ≤ e.score.getD 1)
  | none => filtered

/-- The STEP-7 institution-priority phase (skipped when unavailable). -/
def priorityPhase (inst_priority : Option PriorityTable) (user_institution : Option String)
    (l : List Equipment) : List Equipment :=
  match inst_priority with
  | some t => apply_priority t l user_institution
  | none => l

/-- The `max_recommendations` cap (skipped when the Policy DB is absent). -/
def capPhase (policy : Option PolicySettingsModel) (l : List Equipment) : List Equipment :=
  match policy with
  | some p => l.take p.max_recommendations
  | none => l

/-- The sort key of the `combined_score`-descending sort (Python
`key=lambda x: -x.get("combined_score", 0)`). -/
def combinedKey (e : Equipment) : ℚ × ℚ := (-(e.combined_score.getD 0), 0)

/-- `rerank_with_filters`: hard filters (non-strict), optional policy drops
(maintenance, minimum score), score combination, sort by `combined_score`
descending, optional institution priority, optional recommendation cap.
`policy`/`inst_priority` are `none` when the Policy DB fails to load (the
source's `get_policy_settings`/`get_institution_priority` return `None`). -/
def rerank_with_filters (equipments : List Equipment) (q : ParsedQuery)
    (user_institution : Option String)
    (policy : Option PolicySettingsModel)
    (inst_priority : Option PriorityTable) : List Equipment :=
  capPhase policy
    (priorityPhase inst_priority user_institution
      (sortByKey combinedKey
        ((policyDrop policy (apply_hard_filters equipments q false)).map
          (scoreCombine q))))

/-! ## `app/intent_parser.py`: intent-based filtering -/

/-- One OR-condition clause: an optional `process` and/or `category` key. -/
structure OrCond where
  process : Option String := none
  category : Option String := none
deriving DecidableEq

/-- The fields of `ParsedIntent` that `apply_intent_filters` reads. -/
structure ParsedIntent where
  exclude_materials : List String := []
  exclude_categories : List String := []
  exclude_temp_min : Option ℚ := none
  exclude_temp_max : Option ℚ := none
  or_conditions : List OrCond := []
deriving DecidableEq

/-- The `exclude_temp_min` test: fires when the candidate's `temp_min`
(default 0) is truthy (non-zero) and at least the excluded minimum. -/
def exclTempMin (intent : ParsedIntent) (item : Equipment) : Bool :=
  match intent.exclude_temp_min with
  | none => false
  | some x =>
    let t := item.temp_min.getD 0
    decide (t ≠ 0) && decide (x ≤ t)

/-- The `exclude_temp_max` test: fires when the candidate's `temp_max`
(default 9999) is truthy (non-zero) and at most the excluded maximum. -/
def exclTempMax (intent : ParsedIntent) (item : Equipment) : Bool :=
  match intent.exclude_temp_max with
  | none => false
  | some x =>
    let t := item.temp_max.getD 9999
    decide (t ≠ 0) && decide (t ≤ x)

/-- The `exclude_materials` test: some excluded material equals (after
lowercasing) one of the candidate's materials. -/
def exclMaterials (intent : ParsedIntent) (item : Equipment) : Bool :=
  intent.exclude_materials.any fun ex =>
    (item.materials.map fun m => lowerChars m.toList).contains (lowerChars ex.toList)

/-- The `exclude_categories` test: some excluded category occurs (lowercased)
as a substring of the candidate's category. -/
def exclCategories (intent : ParsedIntent) (item : Equipment) : Bool :=
  intent.exclude_categories.any fun ex =>
    strIncludes (lowerChars item.category.toList) (lowerChars ex.toList)

/-- The `include` flag computed per item in `apply_intent_filters`. -/
def intentInclude (intent : ParsedIntent) (item : Equipment) : Bool :=
  !(exclTempMin intent item || exclTempMax intent item ||
    exclMaterials intent item || exclCategories intent item)

/-- The OR-condition boost: 0.1 per matched `process` clause (substring of the
lowercased name) plus 0.1 per matched `category` clause. -/
def orBoost (intent : ParsedIntent) (item : Equipment) : ℚ :=
  (intent.or_conditions.map fun c =>
    (match c.process with
     | some p =>
       if strIncludes (lowerChars item.name.toList) (lowerChars p.toList)
       then (1 : ℚ)/10 else 0
     | none => 0) +
    (match c.category with
     | some cc =>
       if strIncludes (lowerChars item.category.toList) (lowerChars cc.toList)
       then (1 : ℚ)/10 else 0
     | none => 0)).sum

/-- The boost application: when OR-conditions exist and the boost is positive,
`score = min(1.0, score_or_default + boost)`. -/
def intentBoost (intent : ParsedIntent) (item : Equipment) : Equipment :=
  if intent.or_conditions ≠ [] then
    let b := orBoost intent item
    if 0 < b then { item with score := some (min 1 (item.score.getD (1/2) + b)) }
    else item
  else item

/-- `apply_intent_filters`: drop items matching a negative condition; boost
retained items matching OR-conditions. -/
def apply_intent_filters (results : List Equipment) (intent : ParsedIntent) :
    List Equipment :=
  if results = [] then results
  else results.filterMap fun item =>
    if intentInclude intent item then some (intentBoost intent item) else none

/-! ## `app/main.py`: selection of passed candidates (`chat`, `chat_stream`)

After rerank and intent filtering, the handlers keep the first `top_k`
candidates with a truthy `filter_passed`; when none passed, they fall back to
the first `top_k` of the filtered list itself. -/

def select_passed_results (filtered_results : List Equipment) (top_k : ℕ) :
    List Equipment :=
  let passed := (filtered_results.filter fun e => e.filter_passed.getD true).take top_k
  if passed = [] then filtered_results.take top_k else passed

/-! ## `app/hybrid_search.py`: score fusion (`HybridSearcher.hybrid_search`)

The fusion stage (source lines 147-195) is modelled over the two incoming
result sets — the semantic results (pairs of identifier and vector score) and
the BM25 results (pairs of identifier and normalized BM25 score).  Python's
`round(x, 4)` is modelled exactly as round-half-to-even at four decimal
places over `ℚ`. -/

/-- Round-half-to-even to an integer. -/
def roundHalfEven (x : ℚ) : ℤ :=
  let f := ⌊x⌋
  if x - f < 1/2 then f
  else if (1 : ℚ)/2 < x - f then f + 1
  else if 2 ∣ f then f else f + 1

/-- Python `round(x, 4)`. -/
def round4 (x : ℚ) : ℚ := (roundHalfEven (x * 10000) : ℚ) / 10000

/-- One slot of the `combined` dict: identifier, `vector_score`, and
`bm25_score` (each defaulting to 0). -/
structure FuseEntry where
  id : String
  vector_score : ℚ := 0
  bm25_score : ℚ := 0
deriving DecidableEq

/-- `combined[eq_id]["vector_score"] = score`: update in place when the key
exists (Python dict), otherwise append a fresh slot (insertion order). -/
def setVecScore (l : List FuseEntry) (i : String) (s : ℚ) : List FuseEntry :=
  match l with
  | [] => [{ id := i, vector_score := s }]
  | e :: t => if e.id = i then { e with vector_score := s } :: t
              else e :: setVecScore t i s

/-- `combined[eq_id]["bm25_score"] = score`, appending a BM25-only slot when
the identifier was not seen on the vector side. -/
def setBmScore (l : List FuseEntry) (i : String) (s : ℚ) : List FuseEntry :=
  match l with
  | [] => [{ id := i, bm25_score := s }]
  | e :: t => if e.id = i then { e with bm25_score := s } :: t
              else e :: setBmScore t i s

/-- The union-by-identifier dict of `hybrid_search`: vector results are
inserted first, then BM25 results. -/
def buildCombined (vector_results bm25_results : List (String × ℚ)) :
    List FuseEntry :=
  let afterVec := vector_results.foldl (fun acc p => setVecScore acc p.1 p.2) []
  bm25_results.foldl (fun acc p => setBmScore acc p.1 p.2) afterVec

/-- Python `list.sort(key=f, reverse=True)`: stable descending sort. -/
def sortDescByKey (f : α → ℚ) (l : List α) : List α :=
  l.mergeSort fun a b => decide (f b ≤ f a)

/-- The fused, sorted candidate list before truncation: each union entry gets
`hybrid_score = round(vector_score*vector_weight + bm25_score*bm25_weight, 4)`,
then the list is sorted by `hybrid_score` descending. -/
def hybridAll (vector_results bm25_results : List (String × ℚ))
    (vector_weight bm25_weight : ℚ) : List (String × ℚ) :=
  sortDescByKey (fun p => p.2)
    ((buildCombined vector_results bm25_results).map fun e =>
      (e.id, round4 (e.vector_score * vector_weight + e.bm25_score * bm25_weight)))

/-- The fusion stage of `HybridSearcher.hybrid_search`: union, fuse, sort
descending, truncate to `top_k`. -/
def hybrid_search_fuse (vector_results bm25_results : List (String × ℚ))
    (vector_weight bm25_weight : ℚ) (top_k : ℕ) : List (String × ℚ) :=
  (hybridAll vector_results bm25_results vector_weight bm25_weight).take top_k

/-! ## `app/conversation.py`: follow-up detection and condition merge

The `FOLLOWUP_PATTERNS` regular expressions use only literals, alternation,
`\s*` and `(.+)`, so they are embedded as a small regex AST with an
existential matcher (`re.search` semantics: a match may start at any
position).  Capture groups only delimit alternations here and do not affect
whether a match exists. -/

inductive Rx where
  | lit (s : List Char)
  | alt (a b : Rx)
  | wsStar
  | anyPlus
  | seq (a b : Rx)

/-- Python `\s` for the characters occurring in these queries. -/
def isWs (c : Char) : Bool :=
  c = ' ' ∨ c = '\t' ∨ c = '\n' ∨ c = '\r'

/-- Remainders after consuming `\s*`: drop zero or more leading whitespace
characters. -/
def wsStarRem : List Char → List (List Char)
  | [] => [[]]
  | c :: t => if isWs c then (c :: t) :: wsStarRem t else [c :: t]

/-- Remainders after consuming `(.+)`: drop one or more leading characters. -/
def properSuffixes : List Char → List (List Char)
  | [] => []
  | _ :: t => t :: properSuffixes t

/-- All remainders after matching the regex at the front of the input. -/
def matchRem : Rx → List Char → List (List Char)
  | .lit s, cs => if s.isPrefixOf cs then [cs.drop s.length] else []
  | .alt a b, cs => matchRem a cs ++ matchRem b cs
  | .wsStar, cs => wsStarRem cs
  | .anyPlus, cs => properSuffixes cs
  | .seq a b, cs => (matchRem a cs).flatMap (matchRem b)

/-- `re.search`: the regex matches starting at some position. -/
def rxSearch (r : Rx) (cs : List Char) : Bool :=
  cs.tails.any fun t => !(matchRem r t).isEmpty

/-- Concatenate a list of regexes. -/
def rxOf (parts : List Rx) : Rx := parts.foldr Rx.seq (Rx.lit [])

/-- Alternation of string literals, e.g. `(그럼|그러면)`. -/
def altLits : List String → Rx
  | [] => Rx.lit ['\x00']
  | s :: rest => rest.foldl (fun acc x => Rx.alt acc (Rx.lit x.toList)) (Rx.lit s.toList)

/-- `FOLLOWUP_PATTERNS`: the ordered (pattern, intent type) list. -/
def followupPatterns : List (Rx × String) :=
  [ (rxOf [altLits ["그럼", "그러면"], .wsStar, altLits ["이", "저"], .wsStar,
           .lit "조건".toList], "condition_change"),
    (rxOf [altLits ["대신", "말고"], .wsStar, .anyPlus, altLits ["으로", "로"],
           .wsStar, altLits ["바꿔", "변경"]], "condition_replace"),
    (rxOf [.anyPlus, altLits ["으로", "로"], .wsStar, altLits ["바꿔", "변경"]],
      "condition_replace"),
    (rxOf [altLits ["그", "저", "이"], .wsStar, .lit "장비".toList],
      "reference_previous"),
    (Rx.alt (rxOf [.lit "첫".toList, .wsStar, .lit "번째".toList])
      (Rx.alt (rxOf [.lit "두".toList, .wsStar, .lit "번째".toList])
              (rxOf [.lit "세".toList, .wsStar, .lit "번째".toList])),
      "reference_previous"),
    (rxOf [.lit "맨".toList, .wsStar, altLits ["위", "아래", "처음", "마지막"]],
      "reference_previous"),
    (rxOf [altLits ["거기에", "추가로", "더"], .wsStar, .anyPlus, altLits ["도", "만"]],
      "add_condition"),
    (rxOf [altLits ["비슷한", "유사한"], .wsStar, altLits ["다른", "장비"]],
      "similar_request"),
    (rxOf [altLits ["더", "가장"], .wsStar, altLits ["싼", "비싼", "좋은", "빠른"]],
      "comparison"),
    (altLits ["차이", "비교"], "comparison"),
    (rxOf [altLits ["더", "좀"], .wsStar, altLits ["넓", "좁"], altLits ["게", "히", "혀"]],
      "adjust_range") ]

/-- The result dict of `detect_followup_intent`. -/
structure FollowupIntent where
  is_followup : Bool
  intent_type : Option String
  confidence : ℚ
deriving DecidableEq

/-- `detect_followup_intent`: first matching pattern wins; otherwise a short
query containing a demonstrative pronoun is a low-confidence follow-up;
otherwise not a follow-up. -/
def detect_followup_intent (query : String) : FollowupIntent :=
  let query_lower := lowerChars query.toList
  match followupPatterns.find? (fun p => rxSearch p.1 query_lower) with
  | some p => { is_followup := true, intent_type := some p.2, confidence := 8/10 }
  | none =>
    if query.toList.length < 20 &&
       (["이거", "저거", "그거", "이건", "그건"].any fun kw =>
         strIncludes query.toList kw.toList) then
      { is_followup := true, intent_type := some "reference_previous",
        confidence := 6/10 }
    else
      { is_followup := false, intent_type := none, confidence := 0 }

/-! The condition dictionaries handled by `merge_with_previous_conditions`
are plain Python dicts; values are numbers, strings, string lists, or
`None`. -/

inductive PyVal where
  | vnone
  | vnum (q : ℚ)
  | vstr (s : String)
  | vlist (l : List String)
deriving DecidableEq

/-- Python truthiness for the value types above. -/
def PyVal.truthy : PyVal → Bool
  | .vnone => false
  | .vnum q => decide (q ≠ 0)
  | .vstr s => decide (s ≠ "")
  | .vlist l => decide (l ≠ [])

/-- A Python dict as an insertion-ordered association list with distinct
keys. -/
abbrev PyDict := List (String × PyVal)

/-- `d[k] = v`: replace in place when the key exists, else append. -/
def dictSet (d : PyDict) (k : String) (v : PyVal) : PyDict :=
  match d with
  | [] => [(k, v)]
  | (k', v') :: t => if k' = k then (k, v) :: t else (k', v') :: dictSet t k v

/-- `d.get(k)`. -/
def dictGet (d : PyDict) (k : String) : Option PyVal := d.lookup k

/-- `list(set(a + b))` for the `add_condition` branch; CPython's set order is
unspecified, modelled as first-occurrence order. -/
def mergeListUnion (a b : List String) : List String := (a ++ b).dedup

/-- `merge_with_previous_conditions`: branch on the detected intent type.
(The `add_condition` branch assumes, as the source does, that a list-valued
key is updated with a list value.) -/
def merge_with_previous_conditions (current_conditions previous_conditions : PyDict)
    (followup_intent : FollowupIntent) : PyDict :=
  if !followup_intent.is_followup then current_conditions
  else
    let merged := previous_conditions
    match followup_intent.intent_type with
    | some "condition_replace" =>
      current_conditions.foldl (fun m p => dictSet m p.1 p.2) merged
    | some "add_condition" =>
      current_conditions.foldl (fun m p =>
        match dictGet m p.1, p.2 with
        | some (.vlist prev), .vlist cur => dictSet m p.1 (.vlist (mergeListUnion prev cur))
        | _, v => if v.truthy then dictSet m p.1 v else m) merged
    | some "reference_previous" =>
      current_conditions.foldl (fun m p => if p.2.truthy then dictSet m p.1 p.2 else m) merged
    | some "similar_request" =>
      current_conditions.foldl (fun m p => if p.2.truthy then dictSet m p.1 p.2 else m) merged
    | some "comparison" =>
      match dictGet current_conditions "categories" with
      | some v => if v.truthy then dictSet merged "categories" v else merged
      | none => merged
    | some "condition_change" =>
      current_conditions.foldl (fun m p => if p.2.truthy then dictSet m p.1 p.2 else m) merged
    | _ =>
      current_conditions.foldl (fun m p => if p.2.truthy then dictSet m p.1 p.2 else m) merged

/-! ## `app/query_parser.py`: wafer-size extraction

`extract_wafer_sizes` scans the lowercased text for `<digits>\s*(인치|inch|")`
matches (accepting only configured valid sizes) and for `<mm-number>\s*mm`
patterns mapped through the mm→inch table.  The built-in defaults of the
source are used (the external `filter_rules.json` is data, not code).
A Python `set` collects the sizes; it is modelled as first-occurrence-order
deduplication. -/

def DEFAULT_VALID_WAFER_SIZES : List String :=
  ["2 inch", "3 inch", "4 inch", "6 inch", "8 inch", "12 inch"]

def DEFAULT_MM_TO_INCH : List (String × String) :=
  [("50", "2 inch"), ("75", "3 inch"), ("100", "4 inch"),
   ("150", "6 inch"), ("200", "8 inch"), ("300", "12 inch")]

/-- Match one of `인치 | inch | "` at the front, returning the remainder. -/
def unitRem (cs : List Char) : Option (List Char) :=
  if "인치".toList.isPrefixOf cs then some (cs.drop 2)
  else if "inch".toList.isPrefixOf cs then some (cs.drop 4)
  else if ['\x22'].isPrefixOf cs then some (cs.drop 1)
  else none

/-- Scanner for `re.findall` of `(\d+)\s*(?:인치|inch|")`: collect every
maximal digit run followed (after optional whitespace) by a unit, continuing
after each match (fuel-driven structural recursion; fuel one more than the
input length suffices since every step consumes a character). -/
def waferScanAux : ℕ → List Char → List (List Char)
  | 0, _ => []
  | _ + 1, [] => []
  | fuel + 1, c :: t =>
    if c.isDigit then
      let ds := (c :: t).takeWhile Char.isDigit
      let rest := (c :: t).dropWhile Char.isDigit
      match unitRem (rest.dropWhile isWs) with
      | some rem => ds :: waferScanAux fuel rem
      | none => waferScanAux fuel rest
    else waferScanAux fuel t

/-- `extract_wafer_sizes` with the built-in default tables. -/
def extract_wafer_sizes (text : String) : List String :=
  let tl := lowerChars text.toList
  let inchSizes :=
    ((waferScanAux (tl.length + 1) tl).map fun ds => String.mk ds ++ " inch").filter
      fun s => DEFAULT_VALID_WAFER_SIZES.contains s
  let mmSizes := DEFAULT_MM_TO_INCH.filterMap fun p =>
    if rxSearch (rxOf [.lit p.1.toList, .wsStar, .lit "mm".toList]) tl
    then some p.2 else none
  (inchSizes ++ mmSizes).dedup

/-! ## Specification-side definitions

Two definitions written from the specification's words, to be compared with
the source-side `calculate_match_score`. -/

/-- The match score as the specification literally states it: "the weighted
sum over the requested facets only (weights wafer 0.25, temperature 0.25,
materials 0.25, category 0.15, institution 0.10, each weight awarded in full
exactly when that facet's check passes); when no facet was requested the
match score equals 1.0" — with the facet checks being the per-candidate
checks of the filter engine. -/
def matchScoreClaimed (e : Equipment) (q : ParsedQuery) : ℚ :=
  if q.wafer_sizes = [] ∧ (q.temp_min = none ∧ q.temp_max = none) ∧
     q.materials = [] ∧ q.categories = [] ∧ q.institutions = [] then 1
  else
    (if q.wafer_sizes ≠ [] ∧ check_wafer_size e q.wafer_sizes then (1 : ℚ)/4 else 0)
    + (if (q.temp_min ≠ none ∨ q.temp_max ≠ none) ∧
          check_temperature e q.temp_min q.temp_max then (1 : ℚ)/4 else 0)
    + (if q.materials ≠ [] ∧ check_materials e q.materials then (1 : ℚ)/4 else 0)
    + (if q.categories ≠ [] ∧ check_category e q.categories q.mapped_categories
       then (3 : ℚ)/20 else 0)
    + (if q.institutions ≠ [] ∧ check_institution e q.institutions
       then (1 : ℚ)/10 else 0)

/-- The amended specification of the match score: the weighted sum over the
requested facets (awarded under the facet-hit conditions above), divided by
the total weight of the requested facets; 1.0 when no facet was requested. -/
def matchScoreNormalized (e : Equipment) (q : ParsedQuery) : ℚ :=
  let requested : ℚ :=
    (if q.wafer_sizes ≠ [] then (1 : ℚ)/4 else 0)
    + (if q.temp_min ≠ none ∨ q.temp_max ≠ none then (1 : ℚ)/4 else 0)
    + (if q.materials ≠ [] then (1 : ℚ)/4 else 0)
    + (if q.categories ≠ [] then (3 : ℚ)/20 else 0)
    + (if q.institutions ≠ [] then (1 : ℚ)/10 else 0)
  let awarded : ℚ :=
    (if q.wafer_sizes ≠ [] then (if waferFacetHit e q then (1 : ℚ)/4 else 0) else 0)
    + (if q.temp_min ≠ none ∨ q.temp_max ≠ none then
        (if tempFacetHit e q then (1 : ℚ)/4 else 0) else 0)
    + (if q.materials ≠ [] then (if materialsFacetHit e q then (1 : ℚ)/4 else 0) else 0)
    + (if q.categories ≠ [] then (if categoryFacetHit e q then (3 : ℚ)/20 else 0) else 0)
    + (if q.institutions ≠ [] then (if institutionFacetHit e q then (1 : ℚ)/10 else 0) else 0)
  if requested = 0 then 1 else awarded / requested

/-! ## Derived definitions used by the statements -/

/-- The aggregate hard-filter verdict recorded by `apply_hard_filters`
(`all_passed` in the source): the conjunction of the five checks. -/
def hardAllPassed (q : ParsedQuery) (e : Equipment) : Bool :=
  (filterChecks q e).all fun c => c.2

/-- `q2` extends `q1` by exactly one hard facet that `q1` did not request (a
wafer-size list, a temperature bound, a materials list, or an institutions
list), all other facets unchanged. -/
def addsOneHardFacet (q1 q2 : ParsedQuery) : Prop :=
  (∃ ws, ws ≠ [] ∧ q1.wafer_sizes = [] ∧ q2 = { q1 with wafer_sizes := ws }) ∨
  (∃ m, q1.temp_min = none ∧ q2 = { q1 with temp_min := some m }) ∨
  (∃ m, q1.temp_max = none ∧ q2 = { q1 with temp_max := some m }) ∨
  (∃ ms, ms ≠ [] ∧ q1.materials = [] ∧ q2 = { q1 with materials := ms }) ∨
  (∃ insts, insts ≠ [] ∧ q1.institutions = [] ∧ q2 = { q1 with institutions := insts })

/-- Identifiers of the fusion dict, in insertion order. -/
def fuseKeys (l : List FuseEntry) : List String := l.map FuseEntry.id

/-- First-occurrence lookup of the score pair in the fusion dict. -/
def fuseLookup (l : List FuseEntry) (i : String) : Option (ℚ × ℚ) :=
  (l.find? fun e => e.id = i).map fun e => (e.vector_score, e.bm25_score)

/-! ## Helper lemmas: stable sorts -/

theorem lexLe_trans {a b c : ℚ × ℚ} (h1 : lexLe a b = true) (h2 : lexLe b c = true) :
    lexLe a c = true := by
  simp only [lexLe, decide_eq_true_eq] at *
  rcases h1 with h1 | ⟨h1e, h1r⟩ <;> rcases h2 with h2 | ⟨h2e, h2r⟩
  · exact Or.inl (h1.trans h2)
  · exact Or.inl (h2e ▸ h1)
  · exact Or.inl (h1e ▸ h2)
  · exact Or.inr ⟨h1e.trans h2e, h1r.trans h2r⟩

theorem lexLe_total (a b : ℚ × ℚ) : (lexLe a b || lexLe b a) = true := by
  simp only [lexLe, Bool.or_eq_true, decide_eq_true_eq]
  rcases lt_trichotomy a.1 b.1 with h | h | h
  · exact Or.inl (Or.inl h)
  · rcases le_total a.2 b.2 with h2 | h2
    · exact Or.inl (Or.inr ⟨h, h2⟩)
    · exact Or.inr (Or.inr ⟨h.symm, h2⟩)
  · exact Or.inr (Or.inl h)

theorem sortByKey_perm (f : α → ℚ × ℚ) (l : List α) : (sortByKey f l).Perm l :=
  List.mergeSort_perm l _

theorem mem_sortByKey {f : α → ℚ × ℚ} {l : List α} {a : α} :
    a ∈ sortByKey f l ↔ a ∈ l :=
  List.mem_mergeSort

theorem sortByKey_length (f : α → ℚ × ℚ) (l : List α) :
    (sortByKey f l).length = l.length :=
  List.length_mergeSort l

theorem sortByKey_pairwise (f : α → ℚ × ℚ) (l : List α) :
    (sortByKey f l).Pairwise (fun a b => lexLe (f a) (f b) = true) :=
  @List.sorted_mergeSort _ (fun a b => lexLe (f a) (f b))
    (fun _ _ _ h1 h2 => lexLe_trans h1 h2) (fun a b => lexLe_total (f a) (f b)) l

theorem sortDescByKey_perm (f : α → ℚ) (l : List α) : (sortDescByKey f l).Perm l :=
  List.mergeSort_perm l _

theorem mem_sortDescByKey {f : α → ℚ} {l : List α} {a : α} :
    a ∈ sortDescByKey f l ↔ a ∈ l :=
  List.mem_mergeSort

theorem sortDescByKey_pairwise (f : α → ℚ) (l : List α) :
    (sortDescByKey f l).Pairwise (fun a b => f b ≤ f a) := by
  have h := @List.sorted_mergeSort _ (fun a b => decide (f b ≤ f a))
    (fun _ _ _ h1 h2 => by
      simp only [decide_eq_true_eq] at *
      exact h2.trans h1)
    (fun a b => by
      simp only [Bool.or_eq_true, decide_eq_true_eq]
      exact (le_total (f b) (f a)))
    l
  exact h.imp fun hab => by simpa using hab

/-! ## Claim C6 -/

/-- C6: whenever, after hard filtering and intent filtering, no candidate in
the non-empty filtered list has a truthy `filter_passed`, the handler's
selection step returns the first `top_k` candidates of the filtered list
regardless of filter outcome — a non-empty result, every element annotated as
failing — rather than an empty result. -/
theorem fallback_returns_topk_when_all_fail
    (filtered_results : List Equipment) (top_k : ℕ)
    (hne : filtered_results ≠ [])
    (hk : 1 ≤ top_k)
    (hall : ∀ e ∈ filtered_results, e.filter_passed = some false) :
    select_passed_results filtered_results top_k = filtered_results.take top_k ∧
    select_passed_results filtered_results top_k ≠ [] ∧
    ∀ e ∈ select_passed_results filtered_results top_k, e.filter_passed = some false := by
  have hfil : filtered_results.filter (fun e => e.filter_passed.getD true) = [] := by
    rw [List.filter_eq_nil_iff]
    intro e he
    simp [hall e he]
  have hsel : select_passed_results filtered_results top_k = filtered_results.take top_k := by
    simp [select_passed_results, hfil]
  refine ⟨hsel, ?_, ?_⟩
  · rw [hsel]
    simp only [ne_eq, List.take_eq_nil_iff]
    rintro (h | h)
    · omega
    · exact hne h
  · intro e he
    rw [hsel] at he
    exact hall e (List.take_subset _ _ he)

/-- C6 witness: a concrete one-element all-failing list with `top_k = 3`. -/
theorem fallback_returns_topk_when_all_fail_witness :
    select_passed_results [{ equipment_id := "E1", filter_passed := some false }] 3 =
      List.take 3 [{ equipment_id := "E1", filter_passed := some false }] ∧
    select_passed_results [{ equipment_id := "E1", filter_passed := some false }] 3 ≠ [] ∧
    ∀ e ∈ select_passed_results [{ equipment_id := "E1", filter_passed := some false }] 3,
      e.filter_passed = some false :=
  fallback_returns_topk_when_all_fail
    [{ equipment_id := "E1", filter_passed := some false }] 3
    (by decide) (by decide) (by decide)

/-! ## Helper lemmas: the match score -/

theorem msStep_fst (r h : Bool) (w : ℚ) (sm : ℚ × ℚ) :
    (msStep r h w sm).1 = sm.1 + (if r then (if h then w else 0) else 0) := by
  cases r <;> simp [msStep]

theorem msStep_snd (r h : Bool) (w : ℚ) (sm : ℚ × ℚ) :
    (msStep r h w sm).2 = sm.2 + (if r then w else 0) := by
  cases r <;> simp [msStep]

/-- `calculate_match_score` computes exactly the normalized weighted sum. -/
theorem calc_match_score_eq (e : Equipment) (q : ParsedQuery) :
    calculate_match_score e q = matchScoreNormalized e q := by
  simp only [calculate_match_score, matchScoreNormalized, msStep_fst, msStep_snd,
    decide_eq_true_eq, zero_add]

set_option maxHeartbeats 1000000 in
/-- The match score always lies in `[0, 1]`. -/
theorem calc_match_score_bounds (e : Equipment) (q : ParsedQuery) :
    0 ≤ calculate_match_score e q ∧ calculate_match_score e q ≤ 1 := by
  rw [calc_match_score_eq]
  unfold matchScoreNormalized
  split_ifs <;> norm_num

/-! ## Claim C1 -/

/-- C1 counterexample: for a candidate supporting 6-inch wafers and a query
requesting only the wafer facet (which passes), the claimed unnormalized
weighted sum is `0.25`, but `calculate_match_score` returns `1.0` — the
source divides by the total requested weight. -/
theorem match_score_weighted_sum_counterexample :
    calculate_match_score { wafer_sizes := ["6 inch"] } { wafer_sizes := ["6 inch"] } = 1 ∧
    matchScoreClaimed { wafer_sizes := ["6 inch"] } { wafer_sizes := ["6 inch"] } = 1/4 ∧
    (1 : ℚ) ≠ 1/4 := by
  refine ⟨?_, ?_, by norm_num⟩
  · rw [calc_match_score_eq]
    norm_num [matchScoreNormalized, waferFacetHit]
  · norm_num [matchScoreClaimed, check_wafer_size]

/-- C1 (amended): for every candidate and parsed query, the match score is
the weighted sum over the requested facets only (weights wafer 0.25,
temperature 0.25, materials 0.25, category 0.15, institution 0.10, each
weight awarded in full exactly when that facet's condition holds), divided by
the total weight of the requested facets; and when no facet was requested the
match score equals 1.0. -/
theorem match_score_is_normalized_weighted_sum (e : Equipment) (q : ParsedQuery) :
    calculate_match_score e q = matchScoreNormalized e q ∧
    (q.wafer_sizes = [] → q.temp_min = none → q.temp_max = none →
     q.materials = [] → q.categories = [] → q.institutions = [] →
     calculate_match_score e q = 1) := by
  refine ⟨calc_match_score_eq e q, ?_⟩
  intro h1 h2 h3 h4 h5 h6
  rw [calc_match_score_eq]
  simp [matchScoreNormalized, h1, h2, h3, h4, h5, h6]

/-- C1 witness: the facet-free query gets match score `1.0`. -/
theorem match_score_is_normalized_weighted_sum_witness :
    calculate_match_score ({} : Equipment) ({} : ParsedQuery) = 1 :=
  (match_score_is_normalized_weighted_sum {} {}).2 rfl rfl rfl rfl rfl rfl

/-! ## Helper lemmas: hard filters and rerank -/

/-- Non-strict `apply_hard_filters` keeps every candidate (annotated). -/
theorem apply_hard_filters_nonstrict (l : List Equipment) (q : ParsedQuery) :
    apply_hard_filters l q false =
      sortByKey hardFilterKey (l.map (annotateFilters q)) := by
  have h : ∀ m : List Equipment, List.filterMap
      (fun e =>
        let a := annotateFilters q e
        if (false && !a.filter_passed.getD true) = true then none else some a) m =
      m.map (annotateFilters q) := by
    intro m
    induction m with
    | nil => rfl
    | cons x xs ih =>
      simp only [List.filterMap_cons, List.map_cons]
      simp
      exact ih
  unfold apply_hard_filters
  rw [h]

/-- Every element of `apply_hard_filters` is an annotated input element. -/
theorem mem_apply_hard_filters {l : List Equipment} {q : ParsedQuery}
    {strict : Bool} {y : Equipment} (hy : y ∈ apply_hard_filters l q strict) :
    ∃ x ∈ l, y = annotateFilters q x := by
  unfold apply_hard_filters at hy
  rw [mem_sortByKey] at hy
  rcases List.mem_filterMap.mp hy with ⟨x, hx, hfx⟩
  refine ⟨x, hx, ?_⟩
  by_cases hc : (strict && !((annotateFilters q x).filter_passed.getD true)) = true
  · simp [hc] at hfx
  · simp only [Bool.not_eq_true] at hc
    simp [hc] at hfx
    exact hfx.symm

/-- Every element of `apply_priority` is an input element with only its
priority annotation changed. -/
theorem mem_apply_priority {t : PriorityTable} {l : List Equipment}
    {u : Option String} {y : Equipment} (hy : y ∈ apply_priority t l u) :
    ∃ z ∈ l, y = { z with priority_score := some (priorityScoreOf t u z) } := by
  unfold apply_priority at hy
  by_cases hl : l = []
  · simp [hl] at hy
  · simp only [if_neg hl] at hy
    rw [mem_sortByKey] at hy
    rcases List.mem_map.mp hy with ⟨z, hz, hzy⟩
    exact ⟨z, hz, hzy.symm⟩

/-- The match score of a candidate is unchanged by the score-field updates of
`scoreCombine` (it reads only the static facet fields). -/
theorem calc_match_score_scoreCombine (q : ParsedQuery) (e : Equipment) :
    calculate_match_score (scoreCombine q e) q = calculate_match_score e q := rfl

/-- The combined score set by `scoreCombine`, in terms of the input. -/
theorem scoreCombine_combined (q : ParsedQuery) (e : Equipment) :
    (scoreCombine q e).combined_score =
      some ((e.score.getD (1/2) * (4/10) + calculate_match_score e q * (6/10)) *
        (if e.filter_passed.getD true then 1 else 3/10)) := rfl

theorem scoreCombine_match (q : ParsedQuery) (e : Equipment) :
    (scoreCombine q e).match_score = some (calculate_match_score e q) := rfl

theorem scoreCombine_rag (q : ParsedQuery) (e : Equipment) :
    (scoreCombine q e).rag_score = some (e.score.getD (1/2)) := rfl

theorem scoreCombine_passed (q : ParsedQuery) (e : Equipment) :
    (scoreCombine q e).filter_passed = e.filter_passed := rfl

/-- Bounds for the combined score: with the retrieval score in `[0,1]` (when
present), the combined score lies in `[0,1]`. -/
theorem scoreCombine_bounds (q : ParsedQuery) (e : Equipment)
    (hs : ∀ s, e.score = some s → 0 ≤ s ∧ s ≤ 1) :
    ∀ c, (scoreCombine q e).combined_score = some c → 0 ≤ c ∧ c ≤ 1 := by
  intro c hc
  rw [scoreCombine_combined] at hc
  have hrag : 0 ≤ e.score.getD (1/2) ∧ e.score.getD (1/2) ≤ 1 := by
    cases h : e.score with
    | none => norm_num
    | some s => simpa using hs s h
  have hms := calc_match_score_bounds e q
  have hc' : c = (e.score.getD (1/2) * (4/10) + calculate_match_score e q * (6/10)) *
      (if e.filter_passed.getD true then 1 else 3/10) := by
    injection hc with h
    exact h.symm
  subst hc'
  obtain ⟨hr0, hr1⟩ := hrag
  obtain ⟨hm0, hm1⟩ := hms
  split_ifs with hw
  · constructor <;> nlinarith
  · constructor <;> nlinarith

theorem mem_policyDrop {p : Option PolicySettingsModel} {l : List Equipment}
    {y : Equipment} (hy : y ∈ policyDrop p l) : y ∈ l := by
  cases p with
  | none => exact hy
  | some pp =>
    unfold policyDrop at hy
    have h1 := List.mem_of_mem_filter hy
    by_cases hm : pp.maintenance_exclude
    · simp only [hm, if_pos] at h1
      exact List.mem_of_mem_filter h1
    · simpa [hm] using h1

theorem mem_priorityPhase {ip : Option PriorityTable} {u : Option String}
    {l : List Equipment} {y : Equipment} (hy : y ∈ priorityPhase ip u l) :
    ∃ z ∈ l, y.combined_score = z.combined_score ∧ y.match_score = z.match_score ∧
      y.score = z.score ∧ y.rag_score = z.rag_score ∧ y.filter_passed = z.filter_passed := by
  cases ip with
  | none => exact ⟨y, hy, rfl, rfl, rfl, rfl, rfl⟩
  | some t =>
    rcases mem_apply_priority hy with ⟨z, hz, hyz⟩
    exact ⟨z, hz, by rw [hyz], by rw [hyz], by rw [hyz], by rw [hyz], by rw [hyz]⟩

theorem mem_capPhase {p : Option PolicySettingsModel} {l : List Equipment}
    {y : Equipment} (hy : y ∈ capPhase p l) : y ∈ l := by
  cases p with
  | none => exact hy
  | some pp => exact List.take_subset _ _ hy

/-- Every candidate emitted by `rerank_with_filters` carries the scores that
`scoreCombine` assigned to some annotated input candidate. -/
theorem rerank_elem_scores {l : List Equipment} {q : ParsedQuery} {u : Option String}
    {p : Option PolicySettingsModel} {ip : Option PriorityTable} {y : Equipment}
    (hy : y ∈ rerank_with_filters l q u p ip) :
    ∃ x ∈ l,
      y.combined_score = (scoreCombine q (annotateFilters q x)).combined_score ∧
      y.match_score = (scoreCombine q (annotateFilters q x)).match_score := by
  unfold rerank_with_filters at hy
  rcases mem_priorityPhase (mem_capPhase hy) with ⟨z, hz, hc, hm, _, _, _⟩
  rw [mem_sortByKey] at hz
  rcases List.mem_map.mp hz with ⟨w, hw, hwz⟩
  rcases mem_apply_hard_filters (mem_policyDrop hw) with ⟨x, hx, hwx⟩
  subst hwx
  exact ⟨x, hx, by rw [hc, ← hwz], by rw [hm, ← hwz]⟩

/-! ## Helper lemmas: intent filter -/

theorem orBoost_nonneg (intent : ParsedIntent) (item : Equipment) :
    0 ≤ orBoost intent item := by
  unfold orBoost
  apply List.sum_nonneg
  intro x hx
  rcases List.mem_map.mp hx with ⟨c, _, hcx⟩
  rw [← hcx]
  rcases c with ⟨cp, cc⟩
  cases cp <;> cases cc <;> dsimp <;> (try split_ifs) <;> norm_num

theorem intent_filter_elem {l : List Equipment} {intent : ParsedIntent} {y : Equipment}
    (hy : y ∈ apply_intent_filters l intent) : ∃ x ∈ l, y = intentBoost intent x := by
  unfold apply_intent_filters at hy
  by_cases hl : l = []
  · simp [hl] at hy
  · simp only [if_neg hl] at hy
    rcases List.mem_filterMap.mp hy with ⟨x, hx, hfx⟩
    by_cases hi : intentInclude intent x
    · simp only [if_pos hi, Option.some.injEq] at hfx
      exact ⟨x, hx, hfx.symm⟩
    · simp [hi] at hfx

theorem intentBoost_score_bounds (intent : ParsedIntent) (x : Equipment)
    (hs : ∀ s, x.score = some s → 0 ≤ s ∧ s ≤ 1) :
    ∀ s, (intentBoost intent x).score = some s → 0 ≤ s ∧ s ≤ 1 := by
  intro s hsc
  unfold intentBoost at hsc
  by_cases hoc : intent.or_conditions ≠ []
  · simp only [if_pos hoc] at hsc
    by_cases hb : 0 < orBoost intent x
    · simp only [if_pos hb, Option.some.injEq] at hsc
      have h0 : 0 ≤ x.score.getD (1/2) := by
        cases h : x.score with
        | none => norm_num
        | some v => simpa using (hs v h).1
      have hbn := orBoost_nonneg intent x
      constructor
      · rw [← hsc]
        exact le_min (by norm_num) (by linarith)
      · rw [← hsc]
        exact min_le_left _ _
    · simp only [if_neg hb] at hsc
      exact hs s hsc
  · simp only [if_neg hoc] at hsc
    exact hs s hsc

/-! ## Claim C2 -/

/-- C2: for every candidate list whose (present) retrieval scores lie in
`[0,1]`, every `match_score` and `combined_score` assigned by the rerank
stage lies in `[0,1]`, and every retrieval score after the intent filter's
OR-condition boost lies in `[0,1]`. -/
theorem score_bounds_zero_one (l : List Equipment) (q : ParsedQuery)
    (u : Option String) (p : Option PolicySettingsModel)
    (ip : Option PriorityTable) (intent : ParsedIntent)
    (hs : ∀ x ∈ l, ∀ s, x.score = some s → 0 ≤ s ∧ s ≤ 1) :
    (∀ y ∈ rerank_with_filters l q u p ip,
      (∀ m, y.match_score = some m → 0 ≤ m ∧ m ≤ 1) ∧
      (∀ c, y.combined_score = some c → 0 ≤ c ∧ c ≤ 1)) ∧
    (∀ y ∈ apply_intent_filters l intent, ∀ s, y.score = some s → 0 ≤ s ∧ s ≤ 1) := by
  constructor
  · intro y hy
    rcases rerank_elem_scores hy with ⟨x, hx, hc, hm⟩
    constructor
    · intro m hmm
      rw [hm, scoreCombine_match, Option.some.injEq] at hmm
      rw [← hmm]
      exact calc_match_score_bounds _ _
    · intro c hcc
      rw [hc] at hcc
      apply scoreCombine_bounds q (annotateFilters q x) ?_ c hcc
      intro s hsc
      exact hs x hx s hsc
  · intro y hy
    rcases intent_filter_elem hy with ⟨x, hx, hyx⟩
    subst hyx
    exact intentBoost_score_bounds intent x (hs x hx)

/-- C2 witness: a concrete one-candidate list with retrieval score 0.8. -/
theorem score_bounds_zero_one_witness :
    (∀ y ∈ rerank_with_filters [{ equipment_id := "E1", score := some (4/5) }]
        {} none none none,
      (∀ m, y.match_score = some m → 0 ≤ m ∧ m ≤ 1) ∧
      (∀ c, y.combined_score = some c → 0 ≤ c ∧ c ≤ 1)) ∧
    (∀ y ∈ apply_intent_filters [{ equipment_id := "E1", score := some (4/5) }]
        { or_conditions := [{ process := some "cvd" }] },
      ∀ s, y.score = some s → 0 ≤ s ∧ s ≤ 1) :=
  score_bounds_zero_one [{ equipment_id := "E1", score := some (4/5) }] {} none none none
    { or_conditions := [{ process := some "cvd" }] }
    (by
      intro x hx s hsc
      simp only [List.mem_singleton] at hx
      subst hx
      simp only [Option.some.injEq] at hsc
      rw [← hsc]
      norm_num)

/-! ## Claim C3 -/

/-- C3: in the rerank stage (with the optional Policy DB steps absent), every
candidate's `combined_score` equals
`(fusedScore*0.4 + matchScore*0.6) * filterWeight` with `filterWeight` 1.0
when every hard check passed and 0.3 otherwise; in non-strict mode every
input candidate is retained (annotated and rescored, not removed); and the
resulting list is sorted by `combined_score` descending. -/
theorem rerank_combined_formula_retention_sort (l : List Equipment)
    (q : ParsedQuery) (u : Option String) :
    (∀ y ∈ rerank_with_filters l q u none none,
      y.combined_score = some ((y.rag_score.getD 0 * (4/10) +
          y.match_score.getD 0 * (6/10)) *
        (if y.filter_passed.getD true then 1 else 3/10)) ∧
      y.match_score = some (calculate_match_score y q)) ∧
    (rerank_with_filters l q u none none).Perm
      (l.map fun x => scoreCombine q (annotateFilters q x)) ∧
    (rerank_with_filters l q u none none).Pairwise
      (fun a b => b.combined_score.getD 0 ≤ a.combined_score.getD 0) := by
  have hre : rerank_with_filters l q u none none =
      sortByKey combinedKey
        ((apply_hard_filters l q false).map (scoreCombine q)) := rfl
  refine ⟨?_, ?_, ?_⟩
  · intro y hy
    rw [hre, mem_sortByKey] at hy
    rcases List.mem_map.mp hy with ⟨w, _, hwy⟩
    subst hwy
    refine ⟨?_, ?_⟩
    · rw [scoreCombine_combined, scoreCombine_rag, scoreCombine_match,
        scoreCombine_passed]
      simp only [Option.getD_some]
    · rw [scoreCombine_match, calc_match_score_scoreCombine]
  · rw [hre]
    refine (sortByKey_perm _ _).trans ?_
    rw [apply_hard_filters_nonstrict]
    have := (sortByKey_perm hardFilterKey (l.map (annotateFilters q))).map (scoreCombine q)
    refine this.trans ?_
    rw [List.map_map]
    rfl
  · rw [hre]
    refine (sortByKey_pairwise combinedKey _).imp ?_
    intro a b hab
    simp only [combinedKey, lexLe, decide_eq_true_eq] at hab
    rcases hab with h | ⟨h, _⟩
    · linarith
    · linarith

/-! ## Claim C5 -/

theorem apply_priority_length (t : PriorityTable) (l : List Equipment)
    (u : Option String) : (apply_priority t l u).length = l.length := by
  unfold apply_priority
  by_cases hl : l = []
  · simp [hl]
  · rw [if_neg hl, sortByKey_length, List.length_map]

/-- C5: in policy reranking with a non-empty requesting-user institution,
every candidate gets priority rank 0 when its institution equals the user's
and the configured rank (999 when unlisted) otherwise; the list is the input
re-sorted by (priority rank ascending, then retrieval score descending); and
capping a 10-candidate list at `max_recommendations = 3` yields exactly 3
results of that order. -/
theorem institution_priority_rank_sort_cap (t : PriorityTable)
    (l : List Equipment) (u : String) (hu : u ≠ "") :
    (∀ y ∈ apply_priority t l (some u),
      y.priority_score =
        some (if y.institution = u then 0 else get_priority t y.institution)) ∧
    (apply_priority t l (some u)).Perm
      (l.map fun e => { e with priority_score := some (priorityScoreOf t (some u) e) }) ∧
    (apply_priority t l (some u)).Pairwise (fun a b =>
      a.priority_score.getD 999 < b.priority_score.getD 999 ∨
      (a.priority_score.getD 999 = b.priority_score.getD 999 ∧
       b.rag_score.getD 0 ≤ a.rag_score.getD 0)) ∧
    (l.length = 10 →
      (capPhase (some { max_recommendations := 3 })
        (apply_priority t l (some u))).length = 3) := by
  refine ⟨?_, ?_, ?_, ?_⟩
  · intro y hy
    rcases mem_apply_priority hy with ⟨z, _, hyz⟩
    subst hyz
    simp only [priorityScoreOf, hu, ne_eq, not_false_iff, true_and]
  · unfold apply_priority
    by_cases hl : l = []
    · simp [hl]
    · rw [if_neg hl]
      exact sortByKey_perm _ _
  · unfold apply_priority
    by_cases hl : l = []
    · simp [hl]
    · rw [if_neg hl]
      refine (sortByKey_pairwise _ _).imp ?_
      intro a b hab
      simp only [lexLe, decide_eq_true_eq] at hab
      rcases hab with h | ⟨h, h2⟩
      · exact Or.inl (by exact_mod_cast h)
      · refine Or.inr ⟨by exact_mod_cast h, by linarith⟩
  · intro hlen
    show ((apply_priority t l (some u)).take 3).length = 3
    rw [List.length_take, apply_priority_length, hlen]
    rfl

/-- C5 witness: a concrete table, user institution, and 10-candidate list;
the cap yields exactly 3 results. -/
theorem institution_priority_rank_sort_cap_witness :
    (capPhase (some { max_recommendations := 3 })
      (apply_priority [("NNFC", 1), ("KANC", 2)]
        [{ equipment_id := "E0" }, { equipment_id := "E1" }, { equipment_id := "E2" },
         { equipment_id := "E3" }, { equipment_id := "E4" }, { equipment_id := "E5" },
         { equipment_id := "E6" }, { equipment_id := "E7" }, { equipment_id := "E8" },
         { equipment_id := "E9" }] (some "KAIST"))).length = 3 :=
  (institution_priority_rank_sort_cap [("NNFC", 1), ("KANC", 2)]
    [{ equipment_id := "E0" }, { equipment_id := "E1" }, { equipment_id := "E2" },
     { equipment_id := "E3" }, { equipment_id := "E4" }, { equipment_id := "E5" },
     { equipment_id := "E6" }, { equipment_id := "E7" }, { equipment_id := "E8" },
     { equipment_id := "E9" }] "KAIST" (by decide)).2.2.2 rfl

/-! ## Claim C7 -/

theorem check_temperature_drop_min (e : Equipment) (m : ℚ) (tmax : Option ℚ)
    (h : check_temperature e (some m) tmax = true) :
    check_temperature e none tmax = true := by
  unfold check_temperature at h ⊢
  rcases htmax : tmax with _ | M
  · simp
  · subst htmax
    rw [if_neg (by simp)] at h
    rw [if_neg (by simp)]
    rcases hmin : e.temp_min with _ | emin <;> rcases hmax2 : e.temp_max with _ | emax <;>
      simp_all

theorem check_temperature_drop_max (e : Equipment) (m : ℚ) (tmin : Option ℚ)
    (h : check_temperature e tmin (some m) = true) :
    check_temperature e tmin none = true := by
  unfold check_temperature at h ⊢
  rcases htmin : tmin with _ | M
  · simp
  · subst htmin
    rw [if_neg (by simp)] at h
    rw [if_neg (by simp)]
    rcases hmin : e.temp_min with _ | emin <;> rcases hmax2 : e.temp_max with _ | emax <;>
      simp_all

/-- Pointwise monotonicity: a candidate passing all hard checks under the
extended query passes them under the original query. -/
theorem hardAllPassed_mono (e : Equipment) {q1 q2 : ParsedQuery}
    (h : addsOneHardFacet q1 q2) (h2 : hardAllPassed q2 e = true) :
    hardAllPassed q1 e = true := by
  rcases h with ⟨ws, _, hq1, hq2⟩ | ⟨m, hq1, hq2⟩ | ⟨m, hq1, hq2⟩ |
    ⟨ms, _, hq1, hq2⟩ | ⟨insts, _, hq1, hq2⟩ <;> subst hq2 <;>
    simp only [hardAllPassed, filterChecks, List.all_cons, List.all_nil,
      Bool.and_eq_true, Bool.and_true] at h2 ⊢
  · obtain ⟨_, ht, hm, hi, hc⟩ := h2
    exact ⟨by simp [check_wafer_size, hq1], ht, hm, hi, hc⟩
  · obtain ⟨hw, ht, hm, hi, hc⟩ := h2
    exact ⟨hw, by rw [hq1]; exact check_temperature_drop_min e m _ ht, hm, hi, hc⟩
  · obtain ⟨hw, ht, hm, hi, hc⟩ := h2
    exact ⟨hw, by rw [hq1]; exact check_temperature_drop_max e m _ ht, hm, hi, hc⟩
  · obtain ⟨hw, ht, _, hi, hc⟩ := h2
    exact ⟨hw, ht, by simp [check_materials, hq1], hi, hc⟩
  · obtain ⟨hw, ht, hm, _, hc⟩ := h2
    exact ⟨hw, ht, hm, by simp [check_institution, hq1], hc⟩

/-- The number of candidates marked passing by the hard filters equals the
count of candidates whose five checks all pass. -/
theorem countP_hard_filters (l : List Equipment) (q : ParsedQuery) :
    ((apply_hard_filters l q false).countP fun e => e.filter_passed.getD true) =
      l.countP fun x => hardAllPassed q x := by
  rw [apply_hard_filters_nonstrict]
  rw [((sortByKey_perm hardFilterKey (l.map (annotateFilters q)))).countP_eq]
  rw [List.countP_map]
  congr 1

/-- C7: hard filtering is monotone in the constraints — extending a parsed
query by one previously-unrequested hard facet never increases the number of
candidates marked `filter_passed`. -/
theorem hard_filter_monotone_add_facet (l : List Equipment)
    (q1 q2 : ParsedQuery) (h : addsOneHardFacet q1 q2) :
    ((apply_hard_filters l q2 false).countP fun e => e.filter_passed.getD true) ≤
      ((apply_hard_filters l q1 false).countP fun e => e.filter_passed.getD true) := by
  rw [countP_hard_filters, countP_hard_filters]
  exact List.countP_mono_left fun x _ hp => hardAllPassed_mono x h hp

/-- C7 witness: adding a wafer-size constraint to the empty query. -/
theorem hard_filter_monotone_add_facet_witness :
    ((apply_hard_filters [{ wafer_sizes := ["4 inch"] }]
        { wafer_sizes := ["6 inch"] } false).countP
      fun e => e.filter_passed.getD true) ≤
      ((apply_hard_filters [{ wafer_sizes := ["4 inch"] }] {} false).countP
        fun e => e.filter_passed.getD true) :=
  hard_filter_monotone_add_facet [{ wafer_sizes := ["4 inch"] }] {}
    { wafer_sizes := ["6 inch"] }
    (Or.inl ⟨["6 inch"], by decide, rfl, rfl⟩)

/-! ## Claim C9 -/

/-- Assigning a key to the value it already holds leaves a duplicate-free
dict unchanged. -/
theorem dictSet_mem_self {d : PyDict} {k : String} {v : PyVal}
    (hmem : (k, v) ∈ d) (hnd : (d.map Prod.fst).Nodup) : dictSet d k v = d := by
  induction d with
  | nil => cases hmem
  | cons p t ih =>
    rcases p with ⟨k', v'⟩
    simp only [dictSet]
    by_cases hk : k' = k
    · subst hk
      rcases List.mem_cons.mp hmem with heq | hmem' 
      · rw [if_pos rfl]
        injection heq with h1 h2
        rw [h2]
      · exfalso
        simp only [List.map_cons, List.nodup_cons] at hnd
        exact hnd.1 (List.mem_map.mpr ⟨(k', v), hmem', rfl⟩)
    · rw [if_neg hk]
      simp only [List.map_cons, List.nodup_cons] at hnd
      have hmem' : (k, v) ∈ t := by
        rcases List.mem_cons.mp hmem with heq | hmem'
        · exfalso
          injection heq with h1 _
          exact hk h1.symm
        · exact hmem'
      rw [ih hmem' hnd.2]

/-- Folding truthy same-value assignments over a duplicate-free dict is the
identity. -/
theorem foldl_dictSet_self (L C : PyDict) (hsub : ∀ p ∈ L, p ∈ C)
    (hnd : (C.map Prod.fst).Nodup) :
    L.foldl (fun m p => if p.2.truthy = true then dictSet m p.1 p.2 else m) C = C := by
  induction L with
  | nil => rfl
  | cons p t ih =>
    simp only [List.foldl_cons]
    have hp := hsub p (List.mem_cons_self p t)
    by_cases ht : p.2.truthy = true
    · rw [if_pos ht, dictSet_mem_self hp hnd]
      exact ih fun x hx => hsub x (List.mem_cons_of_mem p hx)
    · rw [if_neg ht]
      exact ih fun x hx => hsub x (List.mem_cons_of_mem p hx)

/-- C9: merging a conditions dict with itself under a detected
`reference_previous` follow-up yields exactly the original dict. -/
theorem reference_merge_idempotent (C : PyDict) (conf : ℚ)
    (hnd : (C.map Prod.fst).Nodup) :
    merge_with_previous_conditions C C
      { is_followup := true, intent_type := some "reference_previous",
        confidence := conf } = C := by
  show C.foldl (fun m p => if p.2.truthy = true then dictSet m p.1 p.2 else m) C = C
  exact foldl_dictSet_self C C (fun p hp => hp) hnd

/-- C9 witness: a concrete two-key conditions dict. -/
theorem reference_merge_idempotent_witness :
    merge_with_previous_conditions
      [("wafer_sizes", PyVal.vlist ["6 inch"]), ("temp_min", PyVal.vnum 400)]
      [("wafer_sizes", PyVal.vlist ["6 inch"]), ("temp_min", PyVal.vnum 400)]
      { is_followup := true, intent_type := some "reference_previous",
        confidence := 0 } =
      [("wafer_sizes", PyVal.vlist ["6 inch"]), ("temp_min", PyVal.vnum 400)] :=
  reference_merge_idempotent
    [("wafer_sizes", PyVal.vlist ["6 inch"]), ("temp_min", PyVal.vnum 400)] 0
    (by decide)

/-! ## Claim C10 -/

/-- C10 counterexample: an intent with `exclude_temp_max` set and a
`temp_max = 0` candidate is not always retained — another exclusion (here a
material exclusion) can still drop it. -/
theorem intent_temp_exclusion_counterexample :
    ({ exclude_temp_max := some 1000, exclude_materials := ["si"] } :
        ParsedIntent).exclude_temp_max ≠ none ∧
    ({ temp_max := some 0, materials := ["Si"] } : Equipment).temp_max = some 0 ∧
    apply_intent_filters [{ temp_max := some 0, materials := ["Si"] }]
      { exclude_temp_max := some 1000, exclude_materials := ["si"] } = [] := by
  refine ⟨by decide, rfl, by decide⟩

/-- The intent filter on a single candidate keeps it iff its `include` flag
holds. -/
theorem apply_intent_filters_singleton (intent : ParsedIntent) (item : Equipment) :
    apply_intent_filters [item] intent =
      if intentInclude intent item then [intentBoost intent item] else [] := by
  by_cases hi : intentInclude intent item
  · simp [apply_intent_filters, hi]
  · simp [apply_intent_filters, hi]

theorem apply_intent_filters_singleton_empty (intent : ParsedIntent) (item : Equipment) :
    apply_intent_filters [item] intent = [] ↔ intentInclude intent item = false := by
  rw [apply_intent_filters_singleton]
  by_cases hi : intentInclude intent item
  · simp [hi]
  · simp [hi]

/-- C10 (amended): the intent filter's temperature exclusions are skipped for
falsy temperature fields — with `exclude_temp_max` set, a candidate whose
`temp_max` equals 0 is never excluded by the temp-max test and is dropped iff
some other exclusion fires; with `exclude_temp_min` set, a candidate whose
`temp_min` is absent or 0 is never excluded by the temp-min test and is
dropped iff some other exclusion fires. -/
theorem intent_temp_exclusion_skips_falsy (intent : ParsedIntent) (item : Equipment) :
    (intent.exclude_temp_max ≠ none → item.temp_max = some 0 →
      exclTempMax intent item = false ∧
      (apply_intent_filters [item] intent = [] ↔
        (exclTempMin intent item || exclMaterials intent item ||
          exclCategories intent item) = true)) ∧
    (intent.exclude_temp_min ≠ none →
      (item.temp_min = none ∨ item.temp_min = some 0) →
      exclTempMin intent item = false ∧
      (apply_intent_filters [item] intent = [] ↔
        (exclTempMax intent item || exclMaterials intent item ||
          exclCategories intent item) = true)) := by
  constructor
  · intro hset hzero
    have hmax : exclTempMax intent item = false := by
      rcases hx : intent.exclude_temp_max with _ | x
      · exact absurd hx hset
      · simp [exclTempMax, hx, hzero]
    refine ⟨hmax, ?_⟩
    rw [apply_intent_filters_singleton_empty]
    show (!(exclTempMin intent item || exclTempMax intent item ||
      exclMaterials intent item || exclCategories intent item)) = false ↔ _
    rw [hmax]
    simp only [Bool.or_false, Bool.not_eq_false_eq_eq_true]
  · intro hset hzero
    have hmin : exclTempMin intent item = false := by
      rcases hx : intent.exclude_temp_min with _ | x
      · exact absurd hx hset
      · rcases hzero with hz | hz <;> simp [exclTempMin, hx, hz]
    refine ⟨hmin, ?_⟩
    rw [apply_intent_filters_singleton_empty]
    show (!(exclTempMin intent item || exclTempMax intent item ||
      exclMaterials intent item || exclCategories intent item)) = false ↔ _
    rw [hmin]
    simp only [Bool.false_or, Bool.not_eq_false_eq_eq_true]

/-- C10 witness: both temperature exclusions set, candidate with
`temp_max = 0` and absent `temp_min`: neither temperature test fires. -/
theorem intent_temp_exclusion_skips_falsy_witness :
    exclTempMax { exclude_temp_min := some 800, exclude_temp_max := some 1000 }
      { temp_max := some 0 } = false ∧
    exclTempMin { exclude_temp_min := some 800, exclude_temp_max := some 1000 }
      { temp_max := some 0 } = false :=
  ⟨((intent_temp_exclusion_skips_falsy
      { exclude_temp_min := some 800, exclude_temp_max := some 1000 }
      { temp_max := some 0 }).1 (by decide) rfl).1,
   ((intent_temp_exclusion_skips_falsy
      { exclude_temp_min := some 800, exclude_temp_max := some 1000 }
      { temp_max := some 0 }).2 (by decide) (Or.inl rfl)).1⟩

/-! ## Claim C8 -/

/-- C8 counterexample: the follow-up detector does not classify the second
turn "그럼 8인치는?" as a follow-up at all — no pattern of
`FOLLOWUP_PATTERNS` matches it and it contains no demonstrative-pronoun
keyword — so it is in particular not a condition-change/reference
follow-up. -/
theorem followup_detection_counterexample :
    (detect_followup_intent "그럼 8인치는?").is_followup = false ∧
    (detect_followup_intent "그럼 8인치는?").intent_type = none :=
  ⟨by decide, by decide⟩

/-- C8 (amended): for the turn "그럼 8인치는?" the detector reports no
follow-up, so the merge step is skipped and the effective conditions are
those of the second query alone: wafer sizes `["8 inch"]`, and no facet of
the previous turn persists (the merge yields exactly the current
conditions whatever the previous turn extracted). -/
theorem followup_scenario_conditions_from_second_query_only :
    detect_followup_intent "그럼 8인치는?" =
      { is_followup := false, intent_type := none, confidence := 0 } ∧
    extract_wafer_sizes "그럼 8인치는?" = ["8 inch"] ∧
    ∀ current previous : PyDict,
      merge_with_previous_conditions current previous
        (detect_followup_intent "그럼 8인치는?") = current := by
  refine ⟨by decide, by decide, ?_⟩
  intro current previous
  rfl


/-! ## Helper lemmas: hybrid fusion -/

theorem lookup_eq_none_of_not_mem {l : List (String × ℚ)} {j : String}
    (h : j ∉ l.map Prod.fst) : List.lookup j l = none := by
  induction l with
  | nil => rfl
  | cons p t ih =>
    rcases p with ⟨k, v⟩
    simp only [List.map_cons, List.mem_cons] at h
    push_neg at h
    rw [List.lookup_cons]
    have hne : (j == k) = false := by simp [h.1]
    rw [hne]
    exact ih h.2

theorem mem_of_lookup_isSome {l : List (String × ℚ)} {j : String}
    (h : (List.lookup j l).isSome) : j ∈ l.map Prod.fst := by
  induction l with
  | nil => simp [List.lookup] at h
  | cons p t ih =>
    rcases p with ⟨k, v⟩
    rw [List.lookup_cons] at h
    by_cases hjk : j = k
    · simp [hjk]
    · have hne : (j == k) = false := by simp [hjk]
      rw [hne] at h
      simp only [List.map_cons, List.mem_cons]
      exact Or.inr (ih h)

theorem lookup_isSome_of_mem {l : List (String × ℚ)} {j : String}
    (h : j ∈ l.map Prod.fst) : (List.lookup j l).isSome := by
  induction l with
  | nil => simp at h
  | cons p t ih =>
    rcases p with ⟨k, v⟩
    rw [List.lookup_cons]
    by_cases hjk : j = k
    · have : (j == k) = true := by simp [hjk]
      rw [this]
      rfl
    · have hne : (j == k) = false := by simp [hjk]
      rw [hne]
      simp only [List.map_cons, List.mem_cons] at h
      exact ih (h.resolve_left hjk)

theorem fuseLookup_cons (e : FuseEntry) (t : List FuseEntry) (j : String) :
    fuseLookup (e :: t) j =
      if e.id = j then some (e.vector_score, e.bm25_score) else fuseLookup t j := by
  simp only [fuseLookup, List.find?_cons]
  by_cases h : e.id = j
  · simp [h]
  · simp [h]

theorem fuseLookup_setVec (l : List FuseEntry) (i : String) (s : ℚ) (j : String) :
    fuseLookup (setVecScore l i s) j =
      if j = i then some (s, ((fuseLookup l i).map Prod.snd).getD 0)
      else fuseLookup l j := by
  induction l with
  | nil =>
    by_cases hj : j = i
    · subst hj
      simp [setVecScore, fuseLookup, List.find?]
    · have hij : (decide (i = j)) = false := by
        simp only [decide_eq_false_iff_not]
        exact fun h => hj h.symm
      simp [setVecScore, fuseLookup, List.find?, hj, hij]
  | cons e t ih =>
    simp only [setVecScore]
    by_cases hei : e.id = i
    · rw [if_pos hei]
      by_cases hj : j = i
      · subst hj
        rw [if_pos rfl, fuseLookup_cons, if_pos hei]
        have hid : ({ e with vector_score := s } : FuseEntry).id = j := hei
        rw [fuseLookup_cons, if_pos hid]
        rfl
      · rw [if_neg hj]
        have hid : ¬ (({ e with vector_score := s } : FuseEntry).id = j) := by
          intro hc
          exact hj ((hc.symm.trans hei : _))
        rw [fuseLookup_cons, if_neg hid, fuseLookup_cons,
          if_neg (fun hc : e.id = j => hid hc)]
    · rw [if_neg hei]
      rw [fuseLookup_cons]
      by_cases hej : e.id = j
      · rw [if_pos hej]
        have hji : ¬ (j = i) := fun hc => hei (hej.trans hc)
        rw [if_neg hji, fuseLookup_cons, if_pos hej]
      · rw [if_neg hej, ih]
        by_cases hj : j = i
        · rw [if_pos hj, if_pos hj, fuseLookup_cons, if_neg hei]
        · rw [if_neg hj, if_neg hj, fuseLookup_cons, if_neg hej]

theorem fuseLookup_setBm (l : List FuseEntry) (i : String) (s : ℚ) (j : String) :
    fuseLookup (setBmScore l i s) j =
      if j = i then some (((fuseLookup l i).map Prod.fst).getD 0, s)
      else fuseLookup l j := by
  induction l with
  | nil =>
    by_cases hj : j = i
    · subst hj
      simp [setBmScore, fuseLookup, List.find?]
    · have hij : (decide (i = j)) = false := by
        simp only [decide_eq_false_iff_not]
        exact fun h => hj h.symm
      simp [setBmScore, fuseLookup, List.find?, hj, hij]
  | cons e t ih =>
    simp only [setBmScore]
    by_cases hei : e.id = i
    · rw [if_pos hei]
      by_cases hj : j = i
      · subst hj
        rw [if_pos rfl, fuseLookup_cons, if_pos hei]
        have hid : ({ e with bm25_score := s } : FuseEntry).id = j := hei
        rw [fuseLookup_cons, if_pos hid]
        rfl
      · rw [if_neg hj]
        have hid : ¬ (({ e with bm25_score := s } : FuseEntry).id = j) := by
          intro hc
          exact hj ((hc.symm.trans hei : _))
        rw [fuseLookup_cons, if_neg hid, fuseLookup_cons,
          if_neg (fun hc : e.id = j => hid hc)]
    · rw [if_neg hei]
      rw [fuseLookup_cons]
      by_cases hej : e.id = j
      · rw [if_pos hej]
        have hji : ¬ (j = i) := fun hc => hei (hej.trans hc)
        rw [if_neg hji, fuseLookup_cons, if_pos hej]
      · rw [if_neg hej, ih]
        by_cases hj : j = i
        · rw [if_pos hj, if_pos hj, fuseLookup_cons, if_neg hei]
        · rw [if_neg hj, if_neg hj, fuseLookup_cons, if_neg hej]

theorem fuseKeys_setVec (l : List FuseEntry) (i : String) (s : ℚ) :
    fuseKeys (setVecScore l i s) =
      if i ∈ fuseKeys l then fuseKeys l else fuseKeys l ++ [i] := by
  induction l with
  | nil => simp [setVecScore, fuseKeys]
  | cons e t ih =>
    simp only [setVecScore]
    by_cases hei : e.id = i
    · rw [if_pos hei]
      have : i ∈ fuseKeys (e :: t) := by
        simp [fuseKeys, hei.symm]
      rw [if_pos this]
      simp [fuseKeys, hei]
    · rw [if_neg hei]
      have hk : fuseKeys (e :: setVecScore t i s) = e.id :: fuseKeys (setVecScore t i s) := rfl
      rw [hk, ih]
      by_cases hit : i ∈ fuseKeys t
      · rw [if_pos hit,
          if_pos (show i ∈ fuseKeys (e :: t) from List.mem_cons.mpr (Or.inr hit))]
        rfl
      · rw [if_neg hit, if_neg ?hni]
        · rfl
        · simp only [fuseKeys, List.map_cons, List.mem_cons]
          rintro (h | h)
          · exact hei h.symm
          · exact hit h

theorem fuseKeys_setBm (l : List FuseEntry) (i : String) (s : ℚ) :
    fuseKeys (setBmScore l i s) =
      if i ∈ fuseKeys l then fuseKeys l else fuseKeys l ++ [i] := by
  induction l with
  | nil => simp [setBmScore, fuseKeys]
  | cons e t ih =>
    simp only [setBmScore]
    by_cases hei : e.id = i
    · rw [if_pos hei]
      have : i ∈ fuseKeys (e :: t) := by
        simp [fuseKeys, hei.symm]
      rw [if_pos this]
      simp [fuseKeys, hei]
    · rw [if_neg hei]
      have hk : fuseKeys (e :: setBmScore t i s) = e.id :: fuseKeys (setBmScore t i s) := rfl
      rw [hk, ih]
      by_cases hit : i ∈ fuseKeys t
      · rw [if_pos hit,
          if_pos (show i ∈ fuseKeys (e :: t) from List.mem_cons.mpr (Or.inr hit))]
        rfl
      · rw [if_neg hit, if_neg ?hni]
        · rfl
        · simp only [fuseKeys, List.map_cons, List.mem_cons]
          rintro (h | h)
          · exact hei h.symm
          · exact hit h

theorem nodup_fuseKeys_setVec {l : List FuseEntry} (i : String) (s : ℚ)
    (h : (fuseKeys l).Nodup) : (fuseKeys (setVecScore l i s)).Nodup := by
  rw [fuseKeys_setVec]
  by_cases hit : i ∈ fuseKeys l
  · rwa [if_pos hit]
  · rw [if_neg hit]
    simp [List.nodup_append, h, hit]

theorem nodup_fuseKeys_setBm {l : List FuseEntry} (i : String) (s : ℚ)
    (h : (fuseKeys l).Nodup) : (fuseKeys (setBmScore l i s)).Nodup := by
  rw [fuseKeys_setBm]
  by_cases hit : i ∈ fuseKeys l
  · rwa [if_pos hit]
  · rw [if_neg hit]
    simp [List.nodup_append, h, hit]

theorem nodup_fuseKeys_buildCombined (vec bm : List (String × ℚ)) :
    (fuseKeys (buildCombined vec bm)).Nodup := by
  have h1 : ∀ (L : List (String × ℚ)) (acc : List FuseEntry), (fuseKeys acc).Nodup →
      (fuseKeys (L.foldl (fun a p => setVecScore a p.1 p.2) acc)).Nodup := by
    intro L
    induction L with
    | nil => intro acc h; exact h
    | cons p t ih =>
      intro acc h
      exact ih _ (nodup_fuseKeys_setVec p.1 p.2 h)
  have h2 : ∀ (L : List (String × ℚ)) (acc : List FuseEntry), (fuseKeys acc).Nodup →
      (fuseKeys (L.foldl (fun a p => setBmScore a p.1 p.2) acc)).Nodup := by
    intro L
    induction L with
    | nil => intro acc h; exact h
    | cons p t ih =>
      intro acc h
      exact ih _ (nodup_fuseKeys_setBm p.1 p.2 h)
  exact h2 bm _ (h1 vec [] (by simp [fuseKeys]))

theorem fuseLookup_eq_none_of_not_mem {l : List FuseEntry} {j : String}
    (h : j ∉ fuseKeys l) : fuseLookup l j = none := by
  induction l with
  | nil => rfl
  | cons e t ih =>
    simp only [fuseKeys, List.map_cons, List.mem_cons] at h
    push_neg at h
    rw [fuseLookup_cons, if_neg (fun hc => h.1 hc.symm)]
    exact ih h.2

theorem mem_of_fuseLookup_isSome {l : List FuseEntry} {j : String}
    (h : (fuseLookup l j).isSome) : j ∈ fuseKeys l := by
  induction l with
  | nil => simp [fuseLookup, List.find?] at h
  | cons e t ih =>
    rw [fuseLookup_cons] at h
    by_cases hej : e.id = j
    · simp [fuseKeys, hej]
    · rw [if_neg hej] at h
      simp only [fuseKeys, List.map_cons, List.mem_cons]
      exact Or.inr (ih h)

theorem fuseLookup_isSome_of_mem {l : List FuseEntry} {j : String}
    (h : j ∈ fuseKeys l) : (fuseLookup l j).isSome := by
  induction l with
  | nil => simp [fuseKeys] at h
  | cons e t ih =>
    rw [fuseLookup_cons]
    by_cases hej : e.id = j
    · rw [if_pos hej]
      rfl
    · rw [if_neg hej]
      simp only [fuseKeys, List.map_cons, List.mem_cons] at h
      exact ih (h.resolve_left fun hc => hej hc.symm)

/-- Vector phase of `buildCombined`: with duplicate-free identifiers, the
lookup after inserting all vector results maps each present identifier to its
vector score (BM25 side 0). -/
theorem fuseLookup_foldl_setVec (vec : List (String × ℚ)) :
    ∀ (acc : List FuseEntry) (j : String),
      (vec.map Prod.fst).Nodup →
      (∀ p ∈ vec, p.1 ∉ fuseKeys acc) →
      fuseLookup (vec.foldl (fun a p => setVecScore a p.1 p.2) acc) j =
        match List.lookup j vec with
        | some v => some (v, 0)
        | none => fuseLookup acc j := by
  induction vec with
  | nil =>
    intro acc j _ _
    rfl
  | cons p rest ih =>
    intro acc j hnd hdisj
    rcases p with ⟨i, s⟩
    simp only [List.map_cons, List.nodup_cons] at hnd
    simp only [List.foldl_cons]
    rw [ih (setVecScore acc i s) j hnd.2 ?hdisj2]
    case hdisj2 =>
      intro p hp
      rw [fuseKeys_setVec]
      have hpi : p.1 ≠ i := by
        intro hc
        exact hnd.1 (hc ▸ List.mem_map.mpr ⟨p, hp, rfl⟩)
      by_cases hia : i ∈ fuseKeys acc
      · rw [if_pos hia]
        exact hdisj p (List.mem_cons_of_mem _ hp)
      · rw [if_neg hia]
        simp only [List.mem_append, List.mem_singleton]
        rintro (h | h)
        · exact hdisj p (List.mem_cons_of_mem _ hp) h
        · exact hpi h
    by_cases hj : j = i
    · subst hj
      have hrest : List.lookup j rest = none :=
        lookup_eq_none_of_not_mem hnd.1
      have hacc : fuseLookup acc j = none :=
        fuseLookup_eq_none_of_not_mem (hdisj (j, s) (List.mem_cons_self _ _))
      rw [hrest, fuseLookup_setVec, if_pos rfl, hacc]
      have hl : List.lookup j ((j, s) :: rest) = some s := by
        rw [List.lookup_cons]
        simp
      rw [hl]
      rfl
    · have hl : List.lookup j ((i, s) :: rest) = List.lookup j rest := by
        rw [List.lookup_cons]
        have : (j == i) = false := by simp [hj]
        rw [this]
      rw [hl]
      rcases hlr : List.lookup j rest with _ | v
      · rw [fuseLookup_setVec, if_neg hj]
      · rfl

/-- BM25 phase of `buildCombined`: with duplicate-free identifiers, the
lookup after inserting all BM25 results overrides the BM25 side of present
identifiers and keeps the rest. -/
theorem fuseLookup_foldl_setBm (bm : List (String × ℚ)) :
    ∀ (acc : List FuseEntry) (j : String),
      (bm.map Prod.fst).Nodup →
      fuseLookup (bm.foldl (fun a p => setBmScore a p.1 p.2) acc) j =
        match List.lookup j bm with
        | some b => some (((fuseLookup acc j).map Prod.fst).getD 0, b)
        | none => fuseLookup acc j := by
  induction bm with
  | nil =>
    intro acc j _
    rfl
  | cons p rest ih =>
    intro acc j hnd
    rcases p with ⟨i, s⟩
    simp only [List.map_cons, List.nodup_cons] at hnd
    simp only [List.foldl_cons]
    rw [ih (setBmScore acc i s) j hnd.2]
    by_cases hj : j = i
    · subst hj
      have hrest : List.lookup j rest = none :=
        lookup_eq_none_of_not_mem hnd.1
      have hl : List.lookup j ((j, s) :: rest) = some s := by
        rw [List.lookup_cons]
        simp
      rw [hrest, hl, fuseLookup_setBm, if_pos rfl]
    · have hl : List.lookup j ((i, s) :: rest) = List.lookup j rest := by
        rw [List.lookup_cons]
        have : (j == i) = false := by simp [hj]
        rw [this]
      rw [hl]
      rcases hlr : List.lookup j rest with _ | b
      · rw [fuseLookup_setBm, if_neg hj]
      · rw [fuseLookup_setBm, if_neg hj]

/-- The union dict of `hybrid_search` maps each identifier of either result
set to its two scores (a missing side contributing 0). -/
theorem fuseLookup_buildCombined (vec bm : List (String × ℚ))
    (hv : (vec.map Prod.fst).Nodup) (hb : (bm.map Prod.fst).Nodup) (j : String) :
    fuseLookup (buildCombined vec bm) j =
      if j ∈ vec.map Prod.fst ∨ j ∈ bm.map Prod.fst then
        some ((List.lookup j vec).getD 0, (List.lookup j bm).getD 0)
      else none := by
  unfold buildCombined
  rw [fuseLookup_foldl_setBm bm _ j hb]
  rcases hbj : List.lookup j bm with _ | b
  · rw [fuseLookup_foldl_setVec vec [] j hv (by simp [fuseKeys])]
    rcases hvj : List.lookup j vec with _ | v
    · have h1 : j ∉ vec.map Prod.fst := by
        intro hc
        have := lookup_isSome_of_mem hc
        rw [hvj] at this
        cases this
      have h2 : j ∉ bm.map Prod.fst := by
        intro hc
        have := lookup_isSome_of_mem hc
        rw [hbj] at this
        cases this
      rw [if_neg (by tauto)]
      rfl
    · have h1 : j ∈ vec.map Prod.fst :=
        mem_of_lookup_isSome (by rw [hvj]; rfl)
      rw [if_pos (Or.inl h1)]
      rfl
  · have h2 : j ∈ bm.map Prod.fst :=
      mem_of_lookup_isSome (by rw [hbj]; rfl)
    rw [if_pos (Or.inr h2)]
    rw [fuseLookup_foldl_setVec vec [] j hv (by simp [fuseKeys])]
    rcases hvj : List.lookup j vec with _ | v
    · rfl
    · rfl

/-- In a duplicate-free-key entry list, `find?` on a member's id returns that
member. -/
theorem find?_self_of_mem {l : List FuseEntry} {e : FuseEntry} (he : e ∈ l)
    (hnd : (fuseKeys l).Nodup) : (l.find? fun x => x.id = e.id) = some e := by
  induction l with
  | nil => cases he
  | cons x t ih =>
    simp only [fuseKeys, List.map_cons, List.nodup_cons] at hnd
    rcases List.mem_cons.mp he with heq | hmem
    · subst heq
      simp [List.find?_cons]
    · rw [List.find?_cons]
      have hx : (decide (x.id = e.id)) = false := by
        simp only [decide_eq_false_iff_not]
        intro hc
        exact hnd.1 (hc ▸ List.mem_map.mpr ⟨e, hmem, rfl⟩)
      rw [hx]
      exact ih hmem hnd.2

/-- Every entry of the union dict carries exactly the looked-up scores and an
identifier from one of the two sides. -/
theorem buildCombined_entry {vec bm : List (String × ℚ)}
    (hv : (vec.map Prod.fst).Nodup) (hb : (bm.map Prod.fst).Nodup)
    {e : FuseEntry} (he : e ∈ buildCombined vec bm) :
    e.vector_score = (List.lookup e.id vec).getD 0 ∧
    e.bm25_score = (List.lookup e.id bm).getD 0 ∧
    (e.id ∈ vec.map Prod.fst ∨ e.id ∈ bm.map Prod.fst) := by
  have hfind : fuseLookup (buildCombined vec bm) e.id =
      some (e.vector_score, e.bm25_score) := by
    unfold fuseLookup
    rw [find?_self_of_mem he (nodup_fuseKeys_buildCombined vec bm)]
    rfl
  rw [fuseLookup_buildCombined vec bm hv hb] at hfind
  by_cases hmem : e.id ∈ vec.map Prod.fst ∨ e.id ∈ bm.map Prod.fst
  · rw [if_pos hmem] at hfind
    injection hfind with hp
    have h1 : e.vector_score = (List.lookup e.id vec).getD 0 := congrArg Prod.fst hp.symm
    have h2 : e.bm25_score = (List.lookup e.id bm).getD 0 := congrArg Prod.snd hp.symm
    exact ⟨h1, h2, hmem⟩
  · rw [if_neg hmem] at hfind
    cases hfind

/-- Identifier membership in the union dict is exactly identifier membership
in either side. -/
theorem mem_fuseKeys_buildCombined {vec bm : List (String × ℚ)}
    (hv : (vec.map Prod.fst).Nodup) (hb : (bm.map Prod.fst).Nodup) (j : String) :
    j ∈ fuseKeys (buildCombined vec bm) ↔
      (j ∈ vec.map Prod.fst ∨ j ∈ bm.map Prod.fst) := by
  constructor
  · intro h
    have := fuseLookup_isSome_of_mem h
    rw [fuseLookup_buildCombined vec bm hv hb] at this
    by_cases hmem : j ∈ vec.map Prod.fst ∨ j ∈ bm.map Prod.fst
    · exact hmem
    · rw [if_neg hmem] at this
      cases this
  · intro h
    apply mem_of_fuseLookup_isSome
    rw [fuseLookup_buildCombined vec bm hv hb, if_pos h]
    rfl

/-! ## Claim C4 -/

/-- C4 counterexample: the fused score is `round(·, 4)` of the weighted sum,
not the exact weighted sum — a vector-only candidate with score `1/50000` and
default weights gets fused score 0, while the exact weighted sum is
`1/100000 ≠ 0`. -/
theorem hybrid_fusion_exact_sum_counterexample :
    hybrid_search_fuse [("A", 1/50000)] [] (1/2) (1/2) 10 = [("A", 0)] ∧
    (1/50000 : ℚ) * (1/2) + 0 * (1/2) ≠ 0 := by
  constructor
  · simp [hybrid_search_fuse, hybridAll, buildCombined, setVecScore,
      sortDescByKey, List.mergeSort]
    norm_num [round4, roundHalfEven]
  · norm_num

/-- C4 (amended): hybrid fusion unions candidates by identifier; each fused
score equals the weighted sum `vector_score*vector_weight +
bm25_score*bm25_weight` (a missing side contributing 0) rounded to four
decimal places; the list is sorted by fused score descending and truncated to
the requested count; and the concrete instance semanticScore 0.8 /
lexicalScore 0.4 with default 0.5/0.5 weights fuses to 0.6. -/
theorem hybrid_fusion_union_round_sorted (vec bm : List (String × ℚ))
    (vw bw : ℚ) (k : ℕ)
    (hv : (vec.map Prod.fst).Nodup) (hb : (bm.map Prod.fst).Nodup) :
    (∀ p ∈ hybridAll vec bm vw bw,
      p.2 = round4 ((List.lookup p.1 vec).getD 0 * vw +
        (List.lookup p.1 bm).getD 0 * bw) ∧
      (p.1 ∈ vec.map Prod.fst ∨ p.1 ∈ bm.map Prod.fst)) ∧
    (∀ j, j ∈ vec.map Prod.fst ∨ j ∈ bm.map Prod.fst →
      ∃ s, (j, s) ∈ hybridAll vec bm vw bw) ∧
    (hybridAll vec bm vw bw).Pairwise (fun a b => b.2 ≤ a.2) ∧
    hybrid_search_fuse vec bm vw bw k = (hybridAll vec bm vw bw).take k ∧
    hybrid_search_fuse [("A", 8/10)] [("A", 4/10)] (1/2) (1/2) 10 = [("A", 3/5)] := by
  refine ⟨?_, ?_, ?_, rfl, ?_⟩
  · intro p hp
    unfold hybridAll at hp
    rw [mem_sortDescByKey] at hp
    rcases List.mem_map.mp hp with ⟨e, he, hep⟩
    rcases buildCombined_entry hv hb he with ⟨h1, h2, h3⟩
    subst hep
    exact ⟨by rw [h1, h2], h3⟩
  · intro j hj
    have hk := (mem_fuseKeys_buildCombined hv hb j).mpr hj
    rcases List.mem_map.mp hk with ⟨e, he, heid⟩
    refine ⟨round4 (e.vector_score * vw + e.bm25_score * bw), ?_⟩
    unfold hybridAll
    rw [mem_sortDescByKey]
    exact List.mem_map.mpr ⟨e, he, by rw [heid]⟩
  · exact sortDescByKey_pairwise _ _
  · simp [hybrid_search_fuse, hybridAll, buildCombined, setVecScore, setBmScore,
      sortDescByKey, List.mergeSort]
    norm_num [round4, roundHalfEven]

/-- C4 witness: concrete duplicate-free result sets. -/
theorem hybrid_fusion_union_round_sorted_witness :
    (∀ p ∈ hybridAll [("A", 8/10)] [("B", 1/5)] (1/2) (1/2),
      p.2 = round4 ((List.lookup p.1 [("A", 8/10)]).getD 0 * (1/2) +
        (List.lookup p.1 [("B", 1/5)]).getD 0 * (1/2)) ∧
      (p.1 ∈ [("A", (8 : ℚ)/10)].map Prod.fst ∨
       p.1 ∈ [("B", (1 : ℚ)/5)].map Prod.fst)) ∧
    (∀ j, j ∈ [("A", (8 : ℚ)/10)].map Prod.fst ∨
        j ∈ [("B", (1 : ℚ)/5)].map Prod.fst →
      ∃ s, (j, s) ∈ hybridAll [("A", 8/10)] [("B", 1/5)] (1/2) (1/2)) ∧
    (hybridAll [("A", 8/10)] [("B", 1/5)] (1/2) (1/2)).Pairwise
      (fun a b => b.2 ≤ a.2) ∧
    hybrid_search_fuse [("A", 8/10)] [("B", 1/5)] (1/2) (1/2) 5 =
      (hybridAll [("A", 8/10)] [("B", 1/5)] (1/2) (1/2)).take 5 ∧
    hybrid_search_fuse [("A", 8/10)] [("A", 4/10)] (1/2) (1/2) 10 = [("A", 3/5)] :=
  hybrid_fusion_union_round_sorted [("A", 8/10)] [("B", 1/5)] (1/2) (1/2) 5
    (by decide) (by decide)

/-- C3 witness: the retention conjunct at a concrete one-candidate list. -/
theorem rerank_combined_formula_retention_sort_witness :
    (rerank_with_filters [{ equipment_id := "E1", score := some (7/10) }]
        {} none none none).Perm
      ([{ equipment_id := "E1", score := some (7/10) }].map
        fun x => scoreCombine {} (annotateFilters {} x)) :=
  (rerank_combined_formula_retention_sort
    [{ equipment_id := "E1", score := some (7/10) }] {} none).2.1

/-- C8 witness: the merge conjunct at concrete current/previous dicts. -/
theorem followup_scenario_conditions_from_second_query_only_witness :
    merge_with_previous_conditions [("wafer_sizes", PyVal.vlist ["8 inch"])]
      [("materials", PyVal.vlist ["Si"])]
      (detect_followup_intent "그럼 8인치는?") =
      [("wafer_sizes", PyVal.vlist ["8 inch"])] :=
  (followup_scenario_conditions_from_second_query_only).2.2
    [("wafer_sizes", PyVal.vlist ["8 inch"])] [("materials", PyVal.vlist ["Si"])]
